import Mathlib

/-!
# ucloud-cli, package `base` (util.go): a shallow embedding

The development covers the refresh step of `Poll`, the table renderer
(`displaySlice`, `printTable`, `calcWidth`, `calcCutWidth`), `MosaicString`
and `PickResourceID`.

Conventions of the embedding.

* A Go `interface{}` is an `Option`: `none` is the nil interface, `some v` holds
  the dynamic value `v`.  A Go `error` is an `Option GoError` in the same way.
* A Go panic is an explicit outcome (`RefreshResult.panic`, or `none` where the
  function has a single normal result).
* Field names, state strings and table texts are Lean strings (Go strings that
  are valid UTF-8; ranging over them yields their characters).  `MosaicString`
  and `PickResourceID` work on bytes and are modelled on byte lists.
* An operand of `fmt.Printf` is given by the writes `fmt` makes for it under the
  verb `v`: the items it pads to the width and the delimiters it does not.
* Go `int` is the 64-bit two's complement integer; arithmetic that can leave the
  range is wrapped with `wrapInt`.
-/

namespace Base

/-! ## Values seen through `reflect` -/

/-- The kinds of `reflect.Kind` other than `Ptr` and `Struct`. -/
inductive PlainKind where
  | Bool | Int | Int8 | Int16 | Int32 | Int64
  | Uint | Uint8 | Uint16 | Uint32 | Uint64 | Uintptr
  | Float32 | Float64 | Complex64 | Complex128
  | Array | Chan | Func | Interface | Map | Slice | String | RawPointer
  deriving DecidableEq, Repr

/-- The kind of a value as `reflect.Value.Kind` reports it. -/
inductive Kind where
  | Invalid
  | Plain (k : PlainKind)
  | Ptr
  | Struct
  deriving DecidableEq, Repr

/-- What `reflect` shows of the value of one struct field: `Value.String()` only
distinguishes a value of kind String (its content) from a value of any other
type (the name of that type). -/
inductive FieldValue where
  | str (content : String)
  | nonStr (typeName : String)
  deriving DecidableEq, Repr

/-- The method `reflect.Value.String`: the content of a string, and
`"<T Value>"` for a value of another type `T`; it never panics. -/
def FieldValue.String : FieldValue → String
  | .str content => content
  | .nonStr typeName => "<" ++ typeName ++ " Value>"

/-- One field of a struct, in declaration order: `Type().Field(i).Name` and
`Value.Field(i)`. -/
structure StructField where
  Name : String
  Value : FieldValue
  deriving DecidableEq, Repr

/-- The dynamic value held by a non-nil `interface{}`. -/
inductive GoValue where
  | struct (fields : List StructField)
  | nilPtr
  | ptr (elem : GoValue)
  | plain (k : PlainKind)
  deriving DecidableEq, Repr

/-- A Go error value, identified by its message. -/
structure GoError where
  msg : String
  deriving DecidableEq, Repr

/-- The function `reflect.Indirect`: the pointee of a pointer (`none`, the zero
Value, for a nil pointer) and the value itself otherwise. -/
def Indirect : GoValue → Option GoValue
  | .ptr elem => some elem
  | .nilPtr => none
  | v => some v

/-- The method `reflect.Value.Kind`, the zero Value being `none`. -/
def kindOf : Option GoValue → Kind
  | none => .Invalid
  | some (.struct _) => .Struct
  | some .nilPtr => .Ptr
  | some (.ptr _) => .Ptr
  | some (.plain k) => .Plain k

/-! ## `Poll`: the `Refresh` closure -/

/-- The outcome of one call of the `Refresh` closure: its three results, or a
panic. -/
inductive RefreshResult where
  | ret (inst : Option GoValue) (state : String) (err : Option GoError)
  | panic (msg : String)
  deriving DecidableEq, Repr

/-- The variable `stateFields` of `Poll`. -/
def stateFields : List String := ["State", "Status"]

/-- The inner loop `for _, sf := range stateFields` for one struct field: each
matching name overwrites `state`. -/
def stateFieldsLoop (f : StructField) : List String → String → String
  | [], state => state
  | sf :: rest, state =>
    stateFieldsLoop f rest (if f.Name = sf then f.Value.String else state)

/-- The outer loop `for i := 0; i < instValue.NumField(); i++` over the fields
in declaration order. -/
def fieldsLoop : List StructField → String → String
  | [], state => state
  | f :: rest, state => fieldsLoop rest (stateFieldsLoop f stateFields state)

/-- The state extracted from a struct: `state := ""` followed by the two
nested loops. -/
def extractState (fields : List StructField) : String :=
  fieldsLoop fields ""

/-- The loop `for _, t := range targetState`: `true` when some `t == state`
makes the closure return. -/
def targetLoop : List String → String → Bool
  | [], _ => false
  | t :: rest, state => if t = state then true else targetLoop rest state

/-- The part of `Refresh` after the describer returned `inst` without error. -/
def refreshInst (inst : Option GoValue) (targetState : List String) : RefreshResult :=
  match inst with
  | none => .ret none "pending" none
  | some v =>
    match Indirect v with
    | none => .panic "reflect: call of reflect.Value.Type on zero Value"
    | some (.struct fields) =>
      let state := extractState fields
      if state ≠ "" then
        if targetLoop targetState state then .ret inst "avaliable" none
        else .ret none "pending" none
      else .ret none "pending" none
    | some _ => .ret none "" (some ⟨"Instance is not struct"⟩)

/-- The closure `Refresh` built by `Poll`: one call of the describer with the
captured arguments, then the inspection of its result. -/
def Refresh (describeFunc : String → String → String → String → Option GoValue × Option GoError)
    (resourceID projectID region zone : String) (targetState : List String) : RefreshResult :=
  match describeFunc resourceID projectID region zone with
  | (_, some err) => .ret none "" (some err)
  | (inst, none) => refreshInst inst targetState

/-- A snapshot is a record when it is a struct or a non-nil pointer to a
struct; `recordFields` gives its fields. -/
def recordFields : GoValue → Option (List StructField)
  | .struct fields => some fields
  | .ptr (.struct fields) => some fields
  | _ => none

/-! ## Table renderer -/

/-- The constant `GAP`. -/
def GAP : Int := 2

/-- The constant `unicode.MaxLatin1`. -/
def MaxLatin1 : Nat := 0xFF

/-- The loop of `calcCutWidth`.  The range tables `unicode.Han` and
`unicode.Punct` are not part of the sources: `isOneOf r` stands for
`unicode.IsOneOf(set, r)`. -/
def calcCutWidthLoop (isOneOf : Char → Bool) : List Char → Int → Int
  | [], width => width
  | r :: rest, width =>
    calcCutWidthLoop isOneOf rest
      (if isOneOf r && decide (r.toNat > MaxLatin1) then width + 1 else width)

/-- The function `calcCutWidth`. -/
def calcCutWidth (isOneOf : Char → Bool) (text : String) : Int :=
  calcCutWidthLoop isOneOf text.toList 0

/-- The loop of `calcWidth`. -/
def calcWidthLoop (isOneOf : Char → Bool) : List Char → Int → Int
  | [], width => width
  | r :: rest, width =>
    calcWidthLoop isOneOf rest
      (if isOneOf r && decide (r.toNat > MaxLatin1) then width + 2 else width + 1)

/-- The function `calcWidth`. -/
def calcWidth (isOneOf : Char → Bool) (text : String) : Int :=
  calcWidthLoop isOneOf text.toList 0

/-- One write of `fmt` while it prints an operand with the verb `v`.  An `item`
is a leaf that `fmt` pads to the width of the directive: a string, a boolean, an
integer, a float, each part of a complex number, the result of an `Error` or
`String` method, the address of a pointer, and in a slice, array, struct or map
each element, field, key and value of these kinds.  A `delim` is written as it
is: the brackets, braces, blanks and colons of a slice, array, struct or map, the
`&` of a pointer to one of them, the parentheses and the `i` of a complex number,
and `<nil>` for a nil interface inside one of them. -/
inductive Segment where
  | item (text : String)
  | delim (text : String)
  deriving DecidableEq, Repr

/-- The characters of a segment. -/
def Segment.text : Segment → String
  | .item text => text
  | .delim text => text

/-- An operand of `fmt.Printf`, an `interface{}`: the nil interface, or a value
given by the name of its type (`reflect.TypeOf(arg).String()`) and the writes
`fmt` makes for it. -/
inductive Operand where
  | nil
  | value (typeName : String) (segments : List Segment)
  deriving DecidableEq, Repr

/-- A string operand: one padded item. -/
def Operand.str (s : String) : Operand := .value "string" [.item s]

/-- The text `fmt.Sprintf("%v", operand)`: no width, hence no padding; the nil
interface prints `<nil>`. -/
def Operand.text : Operand → String
  | .nil => "<nil>"
  | .value _ segments => String.join (segments.map Segment.text)

/-- Whether `fmt` prints the operand as one padded text: the nil interface and
the values of one item (strings, booleans, integers, floats, values with an
`Error` or `String` method), as opposed to slices, arrays, structs, maps and
complex numbers. -/
def Operand.isScalar : Operand → Bool
  | .nil => true
  | .value _ [.item _] => true
  | .value _ _ => false

/-- One field of an element of the data set: its name, whether it is exported
(`Value.Interface` panics on a field that is not), and `value`, the operand
`field.Interface()`. -/
structure RowField where
  Name : String
  exported : Bool
  value : Operand
  deriving DecidableEq, Repr

/-- The text `fmt.Sprintf("%v", field.Interface())` of a field. -/
def RowField.text (f : RowField) : String := f.value.text

/-- A Go map with string keys; a missing key reads as the zero value. -/
abbrev GoMap (V : Type) := String → Option V

/-- The empty map of `make(map[string]V)`. -/
def GoMap.empty {V : Type} : GoMap V := fun _ => none

/-- The assignment `m[k] = v`. -/
def GoMap.set {V : Type} (m : GoMap V) (k : String) (v : V) : GoMap V :=
  fun k' => if k' = k then some v else m k'

/-- The read `m[k]` of a `map[string]int`. -/
def GoMap.width (m : GoMap Int) (k : String) : Int := (m k).getD 0

/-- The read `row[field]` of a `map[string]interface{}`: a missing key is the nil
interface. -/
def cellOperand (row : GoMap Operand) (field : String) : Operand :=
  (row field).getD .nil

/-- The text `fmt.Sprintf("%v", row[field])`. -/
def cellText (row : GoMap Operand) (field : String) : String :=
  (cellOperand row field).text

/-- The first loop of `displaySlice`: `showFieldMap[field] = len([]rune(field))`. -/
def initWidths : List String → GoMap Int → GoMap Int
  | [], m => m
  | field :: rest, m => initWidths rest (m.set field (field.length : Int))

/-- The loop over the fields of one element (`j` from 0 to `NumField()`); `none`
is the panic of `Interface()` on a field that is not exported. -/
def fieldLoop (isOneOf : Char → Bool) :
    List RowField → GoMap Operand → GoMap Int → Option (GoMap Operand × GoMap Int)
  | [], row, showFieldMap => some (row, showFieldMap)
  | f :: rest, row, showFieldMap =>
    if (showFieldMap f.Name).isSome then
      if f.exported then
        let width := calcWidth isOneOf f.text
        fieldLoop isOneOf rest (row.set f.Name f.value)
          (if showFieldMap.width f.Name < width then showFieldMap.set f.Name width
           else showFieldMap)
      else none
    else fieldLoop isOneOf rest row showFieldMap

/-- The loop over the elements of the data set (`i` from 0 to `listVal.Len()`),
appending one row per element.  The data set is a slice of structs, each given by
its fields in declaration order. -/
def rowsLoop (isOneOf : Char → Bool) :
    List (List RowField) → List (GoMap Operand) → GoMap Int →
      Option (List (GoMap Operand) × GoMap Int)
  | [], rowList, showFieldMap => some (rowList, showFieldMap)
  | elem :: rest, rowList, showFieldMap =>
    match fieldLoop isOneOf elem GoMap.empty showFieldMap with
    | none => none
    | some (row, showFieldMap') => rowsLoop isOneOf rest (rowList ++ [row]) showFieldMap'

/-- One call `fmt.Printf("%-" + strconv.Itoa(width) + "v", operand)`; the header
is printed with the verb `s`, which prints a string operand as `v` does. -/
structure Printf where
  width : Int
  operand : Operand
  deriving DecidableEq, Repr

/-- The text `fmt.Sprintf("%v", operand)` of the operand of a call. -/
def Printf.text (p : Printf) : String := p.operand.text

/-- The padding of `fmt` with the minus flag: the text, followed by blanks up to
`width` characters (`fmt` counts characters and never truncates). -/
def padRight (width : Nat) (s : String) : String :=
  s ++ String.mk (List.replicate (width - s.length) ' ')

/-- A segment printed under a width: an item is padded, a delimiter is not. -/
def Segment.render (width : Nat) : Segment → String
  | .item text => padRight width text
  | .delim text => text

/-- An operand printed under a width: the nil interface is padded as a whole, a
value item by item. -/
def Operand.padded (width : Nat) : Operand → String
  | .nil => padRight width "<nil>"
  | .value _ segments => String.join (segments.map (Segment.render width))

/-- What `fmt` appends for an operand that no directive consumed: `<nil>`, or the
name of the type, `=` and the operand printed with `%v`. -/
def Operand.extra : Operand → String
  | .nil => "<nil>"
  | .value typeName segments =>
    typeName ++ "=" ++ (Operand.value typeName segments).text

/-- The largest width that `fmt` reads: while it reads the digits of a width it
gives up as soon as the number read so far exceeds 1000000 and a digit
follows. -/
def maxWidth : Nat := 10000009

/-- What the call prints.  The sign of the width is the minus flag a second time.
A width above `maxWidth` is not read and the rest of the format is skipped with
it: `fmt` prints `%!(NOVERB)` and reports the operand as an extra one.
Otherwise the operand is printed under the width. -/
def Printf.render (p : Printf) : String :=
  if p.width.natAbs > maxWidth then "%!(NOVERB)%!(EXTRA " ++ p.operand.extra ++ ")"
  else p.operand.padded p.width.natAbs

/-- The function `printTable`: the header line, then one line per row; each line
is followed by a newline. -/
def printTable (isOneOf : Char → Bool) (rowList : List (GoMap Operand))
    (fieldList : List String) (fieldWidthMap : GoMap Int) : List (List Printf) :=
  (fieldList.map fun field => ⟨fieldWidthMap.width field + GAP, Operand.str field⟩) ::
  rowList.map fun row =>
    fieldList.map fun field =>
      let cutWidth := calcCutWidth isOneOf (cellText row field)
      ⟨fieldWidthMap.width field - cutWidth + GAP, cellOperand row field⟩

/-- The function `displaySlice`: the calls of `fmt.Printf` it makes, line by line,
or `none` when it panics. -/
def displaySlice (isOneOf : Char → Bool) (listVal : List (List RowField))
    (fieldList : List String) : Option (List (List Printf)) :=
  match rowsLoop isOneOf listVal [] (initWidths fieldList GoMap.empty) with
  | none => none
  | some (rowList, showFieldMap) => some (printTable isOneOf rowList fieldList showFieldMap)

/-- The text written to standard output by the calls. -/
def outputText (lines : List (List Printf)) : String :=
  String.join (lines.map fun line => String.join (line.map Printf.render) ++ "\n")

/-- An excerpt of the range table `unicode.Han`: the block of CJK unified
ideographs U+4E00 to U+9FA5.  It instantiates `isOneOf` at concrete inputs whose
characters are ASCII letters, blanks and ideographs of that block. -/
def hanBlock (r : Char) : Bool :=
  decide (0x4E00 ≤ r.toNat) && decide (r.toNat ≤ 0x9FA5)

/-! ## Byte strings: `MosaicString` and `PickResourceID` -/

/-- One byte of a Go string. -/
abbrev Byte := Fin 256

/-- The 64-bit two's complement value of an integer result. -/
def wrapInt (x : Int) : Int := (x + 2 ^ 63) % 2 ^ 64 - 2 ^ 63

/-- The byte of `"*"`. -/
def star : Byte := 42

/-- The byte of `"/"`. -/
def slash : Byte := 47

/-- The slice expression `s[:hi]`; `none` is the panic for bounds out of range. -/
def sliceTo (s : List Byte) (hi : Int) : Option (List Byte) :=
  if 0 ≤ hi ∧ hi ≤ (s.length : Int) then some (s.take hi.toNat) else none

/-- The slice expression `s[lo:]`; `none` is the panic for bounds out of range. -/
def sliceFrom (s : List Byte) (lo : Int) : Option (List Byte) :=
  if 0 ≤ lo ∧ lo ≤ (s.length : Int) then some (s.drop lo.toNat) else none

/-- The function `strings.Repeat`; it panics on a negative count and when the
length of the result overflows. -/
def Repeat (s : List Byte) (count : Int) : Option (List Byte) :=
  if count < 0 ∨ (s.length : Int) * count ≥ 2 ^ 63 then none
  else some (List.replicate count.toNat s).flatten

/-- The function `MosaicString`. -/
def MosaicString (s : List Byte) (beginChars lastChars : Int) : Option (List Byte) :=
  let r := wrapInt (wrapInt ((s.length : Int) - lastChars) - beginChars)
  if r > 0 then
    match sliceTo s beginChars, Repeat [star] r, sliceFrom s (wrapInt (r + beginChars)) with
    | some head, some mid, some tail => some (head ++ mid ++ tail)
    | _, _, _ => none
  else Repeat [star] (s.length : Int)

/-- The function `strings.IndexByte`, which `strings.Index` calls for a separator
of one byte: the index of the first occurrence, or -1. -/
def IndexByte : List Byte → Byte → Int
  | [], _ => -1
  | b :: rest, c =>
    if b = c then 0
    else
      let i := IndexByte rest c
      if i < 0 then -1 else i + 1

/-- The call `strings.SplitN(s, sep, 2)` for a separator of one byte, after
`genSplit`: `n` is capped at `len(s) + 1`, and the loop runs at most once. -/
def SplitN2 (s : List Byte) (sep : Byte) : List (List Byte) :=
  let n : Int := if 2 > (s.length : Int) + 1 then (s.length : Int) + 1 else 2
  if 0 < n - 1 then
    let m := IndexByte s sep
    if m < 0 then [s]
    else [s.take m.toNat, s.drop (m.toNat + 1)]
  else [s]

/-- The function `PickResourceID`; `none` would be the panic of the index
expression `[0]` on an empty slice. -/
def PickResourceID (str : List Byte) : Option (List Byte) :=
  if IndexByte str slash > -1 then (SplitN2 str slash).head?
  else some str

/-! ## Lemmas on the loops of `Refresh` -/

theorem targetLoop_eq_true_iff (targetState : List String) (state : String) :
    targetLoop targetState state = true ↔ state ∈ targetState := by
  induction targetState with
  | nil => simp [targetLoop]
  | cons t rest ih =>
    by_cases h : t = state
    · simp [targetLoop, h]
    · have h' : ¬ state = t := fun e => h e.symm
      simp [targetLoop, h, h', ih]

theorem stateFieldsLoop_stateFields (f : StructField) (state : String) :
    stateFieldsLoop f stateFields state =
      if f.Name = "State" ∨ f.Name = "Status" then f.Value.String else state := by
  simp only [stateFields, stateFieldsLoop]
  by_cases h1 : f.Name = "State"
  · simp [h1]
  · by_cases h2 : f.Name = "Status"
    · simp [h2]
    · simp [h1, h2]

theorem fieldsLoop_append (xs ys : List StructField) (state : String) :
    fieldsLoop (xs ++ ys) state = fieldsLoop ys (fieldsLoop xs state) := by
  induction xs generalizing state with
  | nil => rfl
  | cons f rest ih => simp [fieldsLoop, ih]

theorem fieldsLoop_no_match (fields : List StructField) (state : String)
    (h : ∀ f ∈ fields, f.Name ≠ "State" ∧ f.Name ≠ "Status") :
    fieldsLoop fields state = state := by
  induction fields generalizing state with
  | nil => rfl
  | cons f rest ih =>
    have hf := h f (List.mem_cons_self f rest)
    have hrest : ∀ g ∈ rest, g.Name ≠ "State" ∧ g.Name ≠ "Status" :=
      fun g hg => h g (List.mem_cons_of_mem f hg)
    simp [fieldsLoop, stateFieldsLoop_stateFields, hf.1, hf.2, ih _ hrest]

theorem fieldsLoop_last_match (before after : List StructField) (f : StructField)
    (state : String) (hf : f.Name = "State" ∨ f.Name = "Status")
    (hafter : ∀ g ∈ after, g.Name ≠ "State" ∧ g.Name ≠ "Status") :
    fieldsLoop (before ++ f :: after) state = f.Value.String := by
  rw [fieldsLoop_append]
  simp only [fieldsLoop]
  rw [fieldsLoop_no_match _ _ hafter, stateFieldsLoop_stateFields]
  simp [hf]

theorem refreshInst_record (v : GoValue) (fields : List StructField)
    (targetState : List String) (hrec : recordFields v = some fields) :
    refreshInst (some v) targetState =
      if extractState fields ≠ "" ∧ extractState fields ∈ targetState
      then .ret (some v) "avaliable" none else .ret none "pending" none := by
  have key : Indirect v = some (.struct fields) := by
    cases v with
    | struct fs => simp [recordFields] at hrec; simp [Indirect, hrec]
    | nilPtr => simp [recordFields] at hrec
    | ptr elem =>
      cases elem with
      | struct fs => simp [recordFields] at hrec; simp [Indirect, hrec]
      | nilPtr => simp [recordFields] at hrec
      | ptr e => simp [recordFields] at hrec
      | plain k => simp [recordFields] at hrec
    | plain k => simp [recordFields] at hrec
  simp only [refreshInst, key]
  by_cases h1 : extractState fields = ""
  · simp [h1]
  · by_cases h2 : extractState fields ∈ targetState
    · simp [h1, h2, (targetLoop_eq_true_iff _ _).2 h2]
    · have h3 : targetLoop targetState (extractState fields) = false := by
        cases h : targetLoop targetState (extractState fields) with
        | false => rfl
        | true => exact absurd ((targetLoop_eq_true_iff _ _).1 h) h2
      simp [h1, h2, h3]

theorem refreshInst_not_record (v : GoValue) (targetState : List String)
    (hnot : kindOf (Indirect v) ≠ Kind.Struct) :
    refreshInst (some v) targetState = .ret none "" (some ⟨"Instance is not struct"⟩) ∨
    refreshInst (some v) targetState =
      .panic "reflect: call of reflect.Value.Type on zero Value" := by
  cases v with
  | struct fs => simp [Indirect, kindOf] at hnot
  | nilPtr => right; simp [refreshInst, Indirect]
  | ptr elem =>
    cases elem with
    | struct fs => simp [Indirect, kindOf] at hnot
    | nilPtr => left; simp [refreshInst, Indirect]
    | ptr e => left; simp [refreshInst, Indirect]
    | plain k => left; simp [refreshInst, Indirect]
  | plain k => left; simp [refreshInst, Indirect]

/-! ## Claims on `Refresh` -/

/-- C1, as stated, fails: for the record `struct { State string }` with `State`
empty and the target list `[""]`, the extracted state is an element of the target
list, yet `Refresh` returns a nil snapshot and the state "pending". -/
theorem C1_empty_state_counterexample :
    recordFields (.struct [⟨"State", .str ""⟩]) = some [⟨"State", .str ""⟩] ∧
    extractState [⟨"State", .str ""⟩] ∈ [""] ∧
    Refresh (fun _ _ _ _ => (some (.struct [⟨"State", .str ""⟩]), none))
        "uhost-1" "org-1" "cn-bj2" "cn-bj2-02" [""] = .ret none "pending" none ∧
    Refresh (fun _ _ _ _ => (some (.struct [⟨"State", .str ""⟩]), none))
        "uhost-1" "org-1" "cn-bj2" "cn-bj2-02" [""] ≠
      .ret (some (.struct [⟨"State", .str ""⟩])) "avaliable" none := by
  decide

/-- C1, amended: when the describer returns a record (a struct or a non-nil
pointer to a struct) without error, then: if the state extracted from it is not
the empty string and is an element of the target list, `Refresh` returns that
same snapshot, the state "avaliable" and no error; and if the extracted state is
the empty string, it is not compared with the target list: `Refresh` returns a
nil snapshot, the state "pending" and no error, whatever the target list holds
(the empty string included). -/
theorem C1_refresh_success
    (describeFunc : String → String → String → String → Option GoValue × Option GoError)
    (resourceID projectID region zone : String) (targetState : List String)
    (inst : GoValue) (fields : List StructField)
    (hdesc : describeFunc resourceID projectID region zone = (some inst, none))
    (hrec : recordFields inst = some fields) :
    (extractState fields ≠ "" → extractState fields ∈ targetState →
      Refresh describeFunc resourceID projectID region zone targetState =
        .ret (some inst) "avaliable" none) ∧
    (extractState fields = "" →
      Refresh describeFunc resourceID projectID region zone targetState =
        .ret none "pending" none) := by
  simp only [Refresh, hdesc]
  rw [refreshInst_record inst fields targetState hrec]
  constructor
  · intro hne hmem
    simp [hne, hmem]
  · intro hempty
    simp [hempty]

theorem C1_refresh_success_witness :
    Refresh (fun _ _ _ _ => (some (.ptr (.struct [⟨"UHostId", .str "uhost-1"⟩,
        ⟨"State", .str "Running"⟩])), none))
      "uhost-1" "org-1" "cn-bj2" "cn-bj2-02" ["Running", "Stopped"] =
      .ret (some (.ptr (.struct [⟨"UHostId", .str "uhost-1"⟩, ⟨"State", .str "Running"⟩])))
        "avaliable" none ∧
    Refresh (fun _ _ _ _ => (some (.ptr (.struct [⟨"UHostId", .str "uhost-1"⟩,
        ⟨"State", .str ""⟩])), none))
      "uhost-1" "org-1" "cn-bj2" "cn-bj2-02" ["", "Running"] = .ret none "pending" none :=
  ⟨(C1_refresh_success _ "uhost-1" "org-1" "cn-bj2" "cn-bj2-02" ["Running", "Stopped"]
      (.ptr (.struct [⟨"UHostId", .str "uhost-1"⟩, ⟨"State", .str "Running"⟩]))
      [⟨"UHostId", .str "uhost-1"⟩, ⟨"State", .str "Running"⟩] rfl rfl).1
      (by decide) (by decide),
    (C1_refresh_success _ "uhost-1" "org-1" "cn-bj2" "cn-bj2-02" ["", "Running"]
      (.ptr (.struct [⟨"UHostId", .str "uhost-1"⟩, ⟨"State", .str ""⟩]))
      [⟨"UHostId", .str "uhost-1"⟩, ⟨"State", .str ""⟩] rfl rfl).2 (by decide)⟩

/-- C2, as stated, fails: in the record `struct { State, Status string }` with
`State` declared first, the extracted state is the value of `Status`, not the
value of `State`. -/
theorem C2_first_match_counterexample :
    extractState [⟨"State", .str "Running"⟩, ⟨"Status", .str "Stopped"⟩] = "Stopped" ∧
    extractState [⟨"State", .str "Running"⟩, ⟨"Status", .str "Stopped"⟩] ≠
      (FieldValue.str "Running").String := by
  decide

/-- C2, amended: for a record with a field `State` and a field `Status`, the
extracted state is the value (as `reflect.Value.String` gives it) of whichever of
the two is declared last: the value of `Status` when `State` is declared before
it, the value of `State` when `Status` is declared before it. -/
theorem C2_last_match_wins (before between after : List StructField)
    (stateValue statusValue : FieldValue)
    (hafter : ∀ g ∈ after, g.Name ≠ "State" ∧ g.Name ≠ "Status") :
    extractState (before ++ ⟨"State", stateValue⟩ :: between ++
        ⟨"Status", statusValue⟩ :: after) = statusValue.String ∧
    extractState (before ++ ⟨"Status", statusValue⟩ :: between ++
        ⟨"State", stateValue⟩ :: after) = stateValue.String := by
  constructor
  · exact fieldsLoop_last_match _ after ⟨"Status", statusValue⟩ "" (Or.inr rfl) hafter
  · exact fieldsLoop_last_match _ after ⟨"State", stateValue⟩ "" (Or.inl rfl) hafter

theorem C2_last_match_wins_witness :
    extractState ([⟨"Name", .str "db"⟩] ++ ⟨"State", .str "Running"⟩ :: [⟨"Port", .nonStr "int"⟩] ++
        ⟨"Status", .str "Stopped"⟩ :: [⟨"Zone", .str "cn-bj2-02"⟩]) = "Stopped" ∧
    extractState ([⟨"Name", .str "db"⟩] ++ ⟨"Status", .str "Stopped"⟩ :: [⟨"Port", .nonStr "int"⟩] ++
        ⟨"State", .str "Running"⟩ :: [⟨"Zone", .str "cn-bj2-02"⟩]) = "Running" :=
  C2_last_match_wins [⟨"Name", .str "db"⟩] [⟨"Port", .nonStr "int"⟩] [⟨"Zone", .str "cn-bj2-02"⟩]
    (.str "Running") (.str "Stopped") (by decide)

/-- C3: when the describer returns a non-nil error, whatever snapshot comes with
it and whatever the target list is, `Refresh` returns a nil snapshot, the empty
state and exactly that error. -/
theorem C3_describer_error
    (describeFunc : String → String → String → String → Option GoValue × Option GoError)
    (resourceID projectID region zone : String) (targetState : List String)
    (inst : Option GoValue) (e : GoError)
    (hdesc : describeFunc resourceID projectID region zone = (inst, some e)) :
    Refresh describeFunc resourceID projectID region zone targetState =
      .ret none "" (some e) := by
  simp [Refresh, hdesc]

theorem C3_describer_error_witness :
    Refresh (fun _ _ _ _ => (some (.struct [⟨"State", .str "Running"⟩]), some ⟨"timeout"⟩))
      "uhost-1" "org-1" "cn-bj2" "cn-bj2-02" ["Running"] = .ret none "" (some ⟨"timeout"⟩) :=
  C3_describer_error _ "uhost-1" "org-1" "cn-bj2" "cn-bj2-02" ["Running"]
    (some (.struct [⟨"State", .str "Running"⟩])) ⟨"timeout"⟩ rfl

/-- C4: when the describer returns without error a nil snapshot, or a record with
neither a `State` nor a `Status` field, or a record whose extracted state is not
an element of the target list, `Refresh` returns a nil snapshot, the state
"pending" and no error. -/
theorem C4_refresh_pending
    (describeFunc : String → String → String → String → Option GoValue × Option GoError)
    (resourceID projectID region zone : String) (targetState : List String)
    (inst : Option GoValue)
    (hdesc : describeFunc resourceID projectID region zone = (inst, none))
    (hcase : inst = none ∨
      ∃ v fields, inst = some v ∧ recordFields v = some fields ∧
        ((∀ f ∈ fields, f.Name ≠ "State" ∧ f.Name ≠ "Status") ∨
          extractState fields ∉ targetState)) :
    Refresh describeFunc resourceID projectID region zone targetState =
      .ret none "pending" none := by
  simp only [Refresh, hdesc]
  rcases hcase with h | ⟨v, fields, hv, hrec, h⟩
  · subst h; rfl
  · subst hv
    rw [refreshInst_record v fields targetState hrec]
    rcases h with h | h
    · have : extractState fields = "" := fieldsLoop_no_match fields "" h
      simp [this]
    · simp [h]

theorem C4_refresh_pending_witness :
    Refresh (fun _ _ _ _ => (some (.struct [⟨"State", .str "initializing"⟩]), none))
      "uhost-1" "org-1" "cn-bj2" "cn-bj2-02" ["Running"] = .ret none "pending" none :=
  C4_refresh_pending _ "uhost-1" "org-1" "cn-bj2" "cn-bj2-02" ["Running"]
    (some (.struct [⟨"State", .str "initializing"⟩])) rfl
    (Or.inr ⟨.struct [⟨"State", .str "initializing"⟩], [⟨"State", .str "initializing"⟩],
      rfl, rfl, Or.inr (by decide)⟩)

/-- C5: when the describer returns without error a non-nil snapshot whose kind,
after `reflect.Indirect`, is not struct, `Refresh` either returns the error
"Instance is not struct" (with a nil snapshot and the empty state) or panics; in
particular it returns neither the state "pending" nor the state "avaliable". -/
theorem C5_not_struct
    (describeFunc : String → String → String → String → Option GoValue × Option GoError)
    (resourceID projectID region zone : String) (targetState : List String)
    (v : GoValue)
    (hdesc : describeFunc resourceID projectID region zone = (some v, none))
    (hnot : kindOf (Indirect v) ≠ Kind.Struct) :
    (Refresh describeFunc resourceID projectID region zone targetState =
        .ret none "" (some ⟨"Instance is not struct"⟩) ∨
      ∃ msg, Refresh describeFunc resourceID projectID region zone targetState = .panic msg) ∧
    ∀ inst state err,
      Refresh describeFunc resourceID projectID region zone targetState = .ret inst state err →
        err ≠ none ∧ state ≠ "pending" ∧ state ≠ "avaliable" := by
  simp only [Refresh, hdesc]
  rcases refreshInst_not_record v targetState hnot with h | h
  · rw [h]
    refine ⟨Or.inl rfl, ?_⟩
    intro inst state err heq
    injection heq with h1 h2 h3
    subst h2; subst h3
    exact ⟨by simp, by decide, by decide⟩
  · rw [h]
    refine ⟨Or.inr ⟨_, rfl⟩, ?_⟩
    intro inst state err heq
    cases heq

theorem C5_not_struct_witness :
    (Refresh (fun _ _ _ _ => (some .nilPtr, none)) "uhost-1" "org-1" "cn-bj2" "cn-bj2-02"
        ["Running"] = .ret none "" (some ⟨"Instance is not struct"⟩) ∨
      ∃ msg, Refresh (fun _ _ _ _ => (some .nilPtr, none)) "uhost-1" "org-1" "cn-bj2"
        "cn-bj2-02" ["Running"] = .panic msg) ∧
    ∀ inst state err,
      Refresh (fun _ _ _ _ => (some .nilPtr, none)) "uhost-1" "org-1" "cn-bj2" "cn-bj2-02"
        ["Running"] = .ret inst state err →
        err ≠ none ∧ state ≠ "pending" ∧ state ≠ "avaliable" :=
  C5_not_struct _ "uhost-1" "org-1" "cn-bj2" "cn-bj2-02" ["Running"] .nilPtr rfl (by decide)

/-! ## Lemmas on display widths -/

theorem calcCutWidthLoop_acc (isOneOf : Char → Bool) (cs : List Char) (width : Int) :
    calcCutWidthLoop isOneOf cs width = width + calcCutWidthLoop isOneOf cs 0 := by
  induction cs generalizing width with
  | nil => simp [calcCutWidthLoop]
  | cons r rest ih =>
    simp only [calcCutWidthLoop]
    rw [ih, ih (if isOneOf r && decide (r.toNat > MaxLatin1) then (0 : Int) + 1 else 0)]
    split <;> omega

theorem calcCutWidthLoop_bounds (isOneOf : Char → Bool) (cs : List Char) :
    0 ≤ calcCutWidthLoop isOneOf cs 0 ∧ calcCutWidthLoop isOneOf cs 0 ≤ (cs.length : Int) := by
  induction cs with
  | nil => simp [calcCutWidthLoop]
  | cons r rest ih =>
    simp only [calcCutWidthLoop, List.length_cons]
    rw [calcCutWidthLoop_acc]
    split <;> omega

theorem calcWidthLoop_eq (isOneOf : Char → Bool) (cs : List Char) (width : Int) :
    calcWidthLoop isOneOf cs width =
      width + (cs.length : Int) + calcCutWidthLoop isOneOf cs 0 := by
  induction cs generalizing width with
  | nil => simp [calcWidthLoop, calcCutWidthLoop]
  | cons r rest ih =>
    simp only [calcWidthLoop, calcCutWidthLoop, List.length_cons]
    rw [ih, calcCutWidthLoop_acc isOneOf rest
      (if isOneOf r && decide (r.toNat > MaxLatin1) then (0 : Int) + 1 else 0)]
    split <;> omega

theorem calcWidth_eq (isOneOf : Char → Bool) (text : String) :
    calcWidth isOneOf text = (text.length : Int) + calcCutWidth isOneOf text := by
  simp only [calcWidth, calcCutWidth]
  rw [calcWidthLoop_eq]
  have h : text.toList.length = text.length := rfl
  rw [h]
  omega

theorem calcCutWidth_nonneg (isOneOf : Char → Bool) (text : String) :
    0 ≤ calcCutWidth isOneOf text :=
  (calcCutWidthLoop_bounds isOneOf text.toList).1

theorem calcCutWidthLoop_append (isOneOf : Char → Bool) (xs ys : List Char) (width : Int) :
    calcCutWidthLoop isOneOf (xs ++ ys) width =
      calcCutWidthLoop isOneOf ys (calcCutWidthLoop isOneOf xs width) := by
  induction xs generalizing width with
  | nil => rfl
  | cons r rest ih => simp [calcCutWidthLoop, ih]

theorem calcCutWidthLoop_blanks (isOneOf : Char → Bool) (n : Nat) (width : Int) :
    calcCutWidthLoop isOneOf (List.replicate n ' ') width = width := by
  induction n generalizing width with
  | zero => rfl
  | succ k ih =>
    have h : decide ((' ' : Char).toNat > MaxLatin1) = false := by decide
    simp only [List.replicate_succ, calcCutWidthLoop, h, Bool.and_false]
    exact ih width

theorem calcCutWidth_padRight (isOneOf : Char → Bool) (width : Nat) (text : String) :
    calcCutWidth isOneOf (padRight width text) = calcCutWidth isOneOf text := by
  simp only [calcCutWidth, padRight, String.toList, String.data_append]
  rw [calcCutWidthLoop_append, calcCutWidthLoop_blanks]

theorem length_padRight (width : Nat) (text : String) :
    (padRight width text).length = text.length + (width - text.length) := by
  unfold padRight
  rw [String.length_append]
  have h : (String.mk (List.replicate (width - text.length) ' ')).length =
      width - text.length := List.length_replicate _ _
  rw [h]

theorem join_singleton (text : String) : String.join [text] = text := by
  simp [String.join]

theorem render_scalar (p : Printf) (hs : p.operand.isScalar = true)
    (hw : p.width.natAbs ≤ maxWidth) :
    p.render = padRight p.width.natAbs p.text := by
  have hw' : ¬ (p.width.natAbs > maxWidth) := by omega
  obtain ⟨width, operand⟩ := p
  simp only [Printf.render, hw', if_false, Printf.text]
  cases operand with
  | nil => rfl
  | value typeName segments =>
    match segments, hs with
    | [.item text], _ =>
      simp only [Operand.padded, Operand.text, List.map, Segment.render, Segment.text,
        join_singleton]

theorem length_render (p : Printf) (hs : p.operand.isScalar = true)
    (hw : p.width ≤ (maxWidth : Int)) (h : (p.text.length : Int) ≤ p.width) :
    (p.render.length : Int) = p.width := by
  rw [render_scalar p hs (by omega), length_padRight]
  omega

theorem calcWidth_render (isOneOf : Char → Bool) (p : Printf)
    (hs : p.operand.isScalar = true) (hw : p.width ≤ (maxWidth : Int))
    (h : (p.text.length : Int) ≤ p.width) :
    calcWidth isOneOf p.render = p.width + calcCutWidth isOneOf p.text := by
  rw [render_scalar p hs (by omega), calcWidth_eq, calcCutWidth_padRight, length_padRight]
  omega

/-! ## Lemmas on the maps of `displaySlice` -/

theorem initWidths_apply (fieldList : List String) (m : GoMap Int) (c : String) :
    initWidths fieldList m c = if c ∈ fieldList then some (c.length : Int) else m c := by
  induction fieldList generalizing m with
  | nil => simp [initWidths]
  | cons field rest ih =>
    simp only [initWidths]
    rw [ih]
    by_cases h : c ∈ rest
    · simp [h]
    · by_cases h2 : c = field
      · simp [h2, GoMap.set]
      · simp [h, h2, GoMap.set]

theorem widthUpdate_facts (m : GoMap Int) (name c : String) (w : Int)
    (hs : (m name).isSome = true) :
    ((if m.width name < w then m.set name w else m) c).isSome = (m c).isSome ∧
    m.width c ≤ (if m.width name < w then m.set name w else m).width c ∧
    (name = c → w ≤ (if m.width name < w then m.set name w else m).width c) ∧
    ((if m.width name < w then m.set name w else m).width c = m.width c ∨
      (name = c ∧ (if m.width name < w then m.set name w else m).width c = w)) := by
  by_cases hlt : m.width name < w
  · simp only [hlt, if_true]
    by_cases hc : c = name
    · subst hc
      simp [GoMap.set, GoMap.width, hs]
      simp [GoMap.width] at hlt
      omega
    · have hc' : ¬ name = c := fun e => hc e.symm
      simp [GoMap.set, GoMap.width, hc, hc']
  · simp only [hlt, if_false]
    refine ⟨trivial, le_refl _, ?_, Or.inl trivial⟩
    intro e
    subst e
    omega

theorem fieldLoop_spec (isOneOf : Char → Bool) (c : String) (fs : List RowField) :
    ∀ (row : GoMap Operand) (m : GoMap Int) (row' : GoMap Operand) (m' : GoMap Int),
    fieldLoop isOneOf fs row m = some (row', m') →
      (m' c).isSome = (m c).isSome ∧
      m.width c ≤ m'.width c ∧
      ((m c).isSome = true → ∀ f ∈ fs, f.Name = c → calcWidth isOneOf f.text ≤ m'.width c) ∧
      (m'.width c = m.width c ∨
        ∃ f ∈ fs, f.Name = c ∧ m'.width c = calcWidth isOneOf f.text) ∧
      ((m c).isSome = true → (∃ f ∈ fs, f.Name = c) →
        ∃ f ∈ fs, f.Name = c ∧ row' c = some f.value) ∧
      ((∀ f ∈ fs, f.Name ≠ c) → row' c = row c) := by
  induction fs with
  | nil =>
    intro row m row' m' h
    simp only [fieldLoop, Option.some.injEq, Prod.mk.injEq] at h
    obtain ⟨h1, h2⟩ := h
    subst h1; subst h2
    simp
  | cons f rest ih =>
    intro row m row' m' h
    simp only [fieldLoop] at h
    by_cases hs : (m f.Name).isSome = true
    · by_cases he : f.exported = true
      · simp only [hs, he, if_true] at h
        obtain ⟨i1, i2, i3, i4, i5, i6⟩ := ih _ _ _ _ h
        obtain ⟨u1, u2, u3, u4⟩ := widthUpdate_facts m f.Name c (calcWidth isOneOf f.text) hs
        refine ⟨i1.trans u1, le_trans u2 i2, ?_, ?_, ?_, ?_⟩
        · intro hc g hg hgc
          rcases List.mem_cons.1 hg with hgf | hgr
          · subst hgf
            exact le_trans (u3 hgc) i2
          · exact i3 (u1.trans hc) g hgr hgc
        · rcases i4 with e | ⟨g, hg, hgc, e⟩
          · rcases u4 with e2 | ⟨hfc, e2⟩
            · exact Or.inl (e.trans e2)
            · exact Or.inr ⟨f, List.mem_cons_self _ _, hfc, e.trans e2⟩
          · exact Or.inr ⟨g, List.mem_cons_of_mem _ hg, hgc, e⟩
        · intro hc hex
          by_cases hr : ∃ g ∈ rest, g.Name = c
          · obtain ⟨g, hg, hgc, e⟩ := i5 (u1.trans hc) hr
            exact ⟨g, List.mem_cons_of_mem _ hg, hgc, e⟩
          · have hnone : ∀ g ∈ rest, g.Name ≠ c := fun g hg e => hr ⟨g, hg, e⟩
            obtain ⟨g, hg, hgc⟩ := hex
            rcases List.mem_cons.1 hg with hgf | hgr
            · subst hgf
              refine ⟨g, List.mem_cons_self _ _, hgc, ?_⟩
              rw [i6 hnone]
              simp [GoMap.set, hgc]
            · exact absurd hgc (hnone g hgr)
        · intro hall
          have hf : f.Name ≠ c := hall f (List.mem_cons_self _ _)
          have hf' : ¬ c = f.Name := fun e => hf e.symm
          rw [i6 (fun g hg => hall g (List.mem_cons_of_mem _ hg))]
          simp [GoMap.set, hf']
      · simp [hs, he] at h
    · simp only [hs, if_false] at h
      have hfc : f.Name = c → (m c).isSome = true → False := by
        intro e hc
        subst e
        exact hs hc
      obtain ⟨i1, i2, i3, i4, i5, i6⟩ := ih _ _ _ _ h
      refine ⟨i1, i2, ?_, ?_, ?_, ?_⟩
      · intro hc g hg hgc
        rcases List.mem_cons.1 hg with hgf | hgr
        · subst hgf
          exact absurd hc (fun hc => hfc hgc hc)
        · exact i3 hc g hgr hgc
      · rcases i4 with e | ⟨g, hg, hgc, e⟩
        · exact Or.inl e
        · exact Or.inr ⟨g, List.mem_cons_of_mem _ hg, hgc, e⟩
      · intro hc hex
        obtain ⟨g, hg, hgc⟩ := hex
        rcases List.mem_cons.1 hg with hgf | hgr
        · subst hgf
          exact absurd hc (fun hc => hfc hgc hc)
        · obtain ⟨g2, hg2, hgc2, e⟩ := i5 hc ⟨g, hgr, hgc⟩
          exact ⟨g2, List.mem_cons_of_mem _ hg2, hgc2, e⟩
      · intro hall
        exact i6 (fun g hg => hall g (List.mem_cons_of_mem _ hg))

theorem fieldLoop_total (isOneOf : Char → Bool) (fs : List RowField) :
    ∀ (row : GoMap Operand) (m : GoMap Int),
    (∀ f ∈ fs, (m f.Name).isSome = true → f.exported = true) →
      ∃ r, fieldLoop isOneOf fs row m = some r := by
  induction fs with
  | nil => intro row m _; exact ⟨_, rfl⟩
  | cons f rest ih =>
    intro row m hexp
    simp only [fieldLoop]
    by_cases hs : (m f.Name).isSome = true
    · have he : f.exported = true := hexp f (List.mem_cons_self _ _) hs
      simp only [hs, he, if_true]
      apply ih
      intro g hg hgs
      apply hexp g (List.mem_cons_of_mem _ hg)
      rw [← (widthUpdate_facts m f.Name g.Name (calcWidth isOneOf f.text) hs).1]
      exact hgs
    · simp only [hs, if_false]
      exact ih _ _ (fun g hg => hexp g (List.mem_cons_of_mem _ hg))

theorem rowsLoop_spec (isOneOf : Char → Bool) (c : String) (listVal : List (List RowField)) :
    ∀ (rowList : List (GoMap Operand)) (m : GoMap Int) (rowList' : List (GoMap Operand))
      (m' : GoMap Int),
    rowsLoop isOneOf listVal rowList m = some (rowList', m') →
      (m' c).isSome = (m c).isSome ∧
      m.width c ≤ m'.width c ∧
      ((m c).isSome = true → ∀ elem ∈ listVal, ∀ f ∈ elem, f.Name = c →
        calcWidth isOneOf f.text ≤ m'.width c) ∧
      (m'.width c = m.width c ∨
        ∃ elem ∈ listVal, ∃ f ∈ elem, f.Name = c ∧ m'.width c = calcWidth isOneOf f.text) ∧
      ((m c).isSome = true → ∃ rows, rowList' = rowList ++ rows ∧
        List.Forall₂ (fun elem row => (∃ f ∈ elem, f.Name = c) →
          ∃ f ∈ elem, f.Name = c ∧ row c = some f.value) listVal rows) := by
  induction listVal with
  | nil =>
    intro rowList m rowList' m' h
    simp only [rowsLoop, Option.some.injEq, Prod.mk.injEq] at h
    obtain ⟨h1, h2⟩ := h
    subst h1; subst h2
    refine ⟨rfl, le_refl _, ?_, Or.inl rfl, ?_⟩
    · intro _ elem helem
      cases helem
    · intro _
      exact ⟨[], by simp, List.Forall₂.nil⟩
  | cons elem rest ih =>
    intro rowList m rowList' m' h
    simp only [rowsLoop] at h
    cases hfl : fieldLoop isOneOf elem GoMap.empty m with
    | none => simp [hfl] at h
    | some r =>
      obtain ⟨row, m1⟩ := r
      simp only [hfl] at h
      obtain ⟨u1, u2, u3, u4, u5, _⟩ := fieldLoop_spec isOneOf c elem _ _ _ _ hfl
      obtain ⟨i1, i2, i3, i4, i5⟩ := ih _ _ _ _ h
      refine ⟨i1.trans u1, le_trans u2 i2, ?_, ?_, ?_⟩
      · intro hc e he f hf hfc
        rcases List.mem_cons.1 he with hee | her
        · subst hee
          exact le_trans (u3 hc f hf hfc) i2
        · exact i3 (u1.trans hc) e her f hf hfc
      · rcases i4 with e | ⟨e2, he2, f, hf, hfc, e⟩
        · rcases u4 with e3 | ⟨f, hf, hfc, e3⟩
          · exact Or.inl (e.trans e3)
          · exact Or.inr ⟨elem, List.mem_cons_self _ _, f, hf, hfc, e.trans e3⟩
        · exact Or.inr ⟨e2, List.mem_cons_of_mem _ he2, f, hf, hfc, e⟩
      · intro hc
        obtain ⟨rows, hrows, hall⟩ := i5 (u1.trans hc)
        refine ⟨row :: rows, ?_, List.Forall₂.cons (u5 hc) hall⟩
        rw [hrows]
        simp

theorem rowsLoop_total (isOneOf : Char → Bool) (listVal : List (List RowField)) :
    ∀ (rowList : List (GoMap Operand)) (m : GoMap Int),
    (∀ elem ∈ listVal, ∀ f ∈ elem, (m f.Name).isSome = true → f.exported = true) →
      ∃ r, rowsLoop isOneOf listVal rowList m = some r := by
  induction listVal with
  | nil => intro rowList m _; exact ⟨_, rfl⟩
  | cons elem rest ih =>
    intro rowList m hexp
    obtain ⟨⟨row, m1⟩, hfl⟩ :=
      fieldLoop_total isOneOf elem GoMap.empty m (hexp elem (List.mem_cons_self _ _))
    simp only [rowsLoop, hfl]
    apply ih
    intro e he f hf hfs
    apply hexp e (List.mem_cons_of_mem _ he) f hf
    rw [← (fieldLoop_spec isOneOf f.Name elem _ _ _ _ hfl).1]
    exact hfs

/-- What `displaySlice` computes for one column `c` of the column list, when no
column names a field that is not exported: it returns, the header of the column is
printed with the width `W + GAP`, where `W` is the largest of the number of
characters of `c` and the display widths of the texts of the fields named `c`, and
the cell of each element that has a field named `c` holds the value of such a
field. -/
theorem displaySlice_column (isOneOf : Char → Bool) (listVal : List (List RowField))
    (fieldList : List String) (c : String)
    (hexp : ∀ elem ∈ listVal, ∀ f ∈ elem, f.Name ∈ fieldList → f.exported = true)
    (hc : c ∈ fieldList) :
    ∃ (rowList : List (GoMap Operand)) (m : GoMap Int),
      displaySlice isOneOf listVal fieldList = some (printTable isOneOf rowList fieldList m) ∧
      (c.length : Int) ≤ m.width c ∧
      (∀ elem ∈ listVal, ∀ f ∈ elem, f.Name = c → calcWidth isOneOf f.text ≤ m.width c) ∧
      (m.width c = (c.length : Int) ∨
        ∃ elem ∈ listVal, ∃ f ∈ elem, f.Name = c ∧ m.width c = calcWidth isOneOf f.text) ∧
      List.Forall₂ (fun elem row => (∃ f ∈ elem, f.Name = c) →
        ∃ f ∈ elem, f.Name = c ∧ row c = some f.value) listVal rowList := by
  have hdom : ∀ k, (initWidths fieldList GoMap.empty k).isSome = true ↔ k ∈ fieldList := by
    intro k
    rw [initWidths_apply]
    by_cases hk : k ∈ fieldList
    · simp [hk]
    · simp [hk, GoMap.empty]
  have hw0 : (initWidths fieldList GoMap.empty).width c = (c.length : Int) := by
    simp [GoMap.width, initWidths_apply, hc]
  obtain ⟨⟨rowList, m⟩, hrl⟩ := rowsLoop_total isOneOf listVal []
    (initWidths fieldList GoMap.empty)
    (fun elem he f hf hfs => hexp elem he f hf ((hdom f.Name).1 hfs))
  obtain ⟨_, s2, s3, s4, s5⟩ := rowsLoop_spec isOneOf c listVal _ _ _ _ hrl
  have hcs : (initWidths fieldList GoMap.empty c).isSome = true := (hdom c).2 hc
  obtain ⟨rows, hrows, hall⟩ := s5 hcs
  rw [hw0] at s2 s4
  refine ⟨rowList, m, ?_, s2, s3 hcs, s4, ?_⟩
  · simp [displaySlice, hrl]
  · have : rowList = rows := by simpa using hrows
    rw [this]
    exact hall

theorem forall₂_getElem? {α β : Type} {R : α → β → Prop} {xs : List α} {ys : List β}
    (h : List.Forall₂ R xs ys) :
    ∀ (i : Nat) (x : α), xs[i]? = some x → ∃ y, ys[i]? = some y ∧ R x y := by
  induction h with
  | nil => intro i x hx; simp at hx
  | cons hxy _ ih =>
    intro i x hx
    cases i with
    | zero =>
      simp only [List.getElem?_cons_zero, Option.some.injEq] at hx
      subst hx
      exact ⟨_, by simp, hxy⟩
    | succ k =>
      simp only [List.getElem?_cons_succ] at hx
      obtain ⟨y, hy, hr⟩ := ih k x hx
      exact ⟨y, by simpa using hy, hr⟩

/-! ## Claims on the table renderer -/

/-- C6, as stated, fails: for the column "A名" (two characters, display width 3)
and one record whose field "A名" holds "x", the header is printed with the width
2 + GAP = 4, whereas max(display width of the header, display width of the cell)
+ GAP is 5. -/
theorem C6_header_display_width_counterexample :
    displaySlice hanBlock [[⟨"A名", true, .str "x"⟩]] ["A名"] =
      some [[⟨4, .str "A名"⟩], [⟨4, .str "x"⟩]] ∧
    max (calcWidth hanBlock "A名") (calcWidth hanBlock "x") + GAP = 5 := by
  decide

/-- C6, amended: for every sequence of records and every column list in which no
column names a field that is not exported, the renderer returns and prints the
header of column `c` with the width `W + GAP`, where `W` is the maximum of the
number of characters of `c` and the display widths (`calcWidth`) of the texts of
the fields named `c` in the records. -/
theorem C6_header_width (isOneOf : Char → Bool) (listVal : List (List RowField))
    (fieldList : List String) (j : Nat) (c : String)
    (hexp : ∀ elem ∈ listVal, ∀ f ∈ elem, f.Name ∈ fieldList → f.exported = true)
    (hc : fieldList[j]? = some c) :
    ∃ (out : List (List Printf)) (header : List Printf) (W : Int),
      displaySlice isOneOf listVal fieldList = some out ∧
      out[0]? = some header ∧
      header[j]? = some ⟨W + GAP, Operand.str c⟩ ∧
      (c.length : Int) ≤ W ∧
      (∀ elem ∈ listVal, ∀ f ∈ elem, f.Name = c → calcWidth isOneOf f.text ≤ W) ∧
      (W = (c.length : Int) ∨
        ∃ elem ∈ listVal, ∃ f ∈ elem, f.Name = c ∧ W = calcWidth isOneOf f.text) := by
  obtain ⟨rowList, m, hds, h1, h2, h3, _⟩ :=
    displaySlice_column isOneOf listVal fieldList c hexp (List.getElem?_mem hc)
  refine ⟨_, fieldList.map fun field => ⟨m.width field + GAP, Operand.str field⟩, m.width c,
    hds, ?_, ?_, h1, h2, h3⟩
  · simp only [printTable, List.getElem?_cons_zero]
  · simp [List.getElem?_map, hc]

theorem C6_header_width_witness :
    ∃ (out : List (List Printf)) (header : List Printf) (W : Int),
      displaySlice hanBlock [[⟨"Name", true, .str "主机"⟩, ⟨"Zone", true, .str "cn-bj2-02"⟩],
        [⟨"Name", true, .str "db"⟩, ⟨"Zone", true, .str "hk"⟩]] ["Zone", "Name"] = some out ∧
      out[0]? = some header ∧
      header[1]? = some ⟨W + GAP, Operand.str "Name"⟩ ∧
      (("Name".length : Nat) : Int) ≤ W ∧
      (∀ elem ∈ [[(⟨"Name", true, .str "主机"⟩ : RowField), ⟨"Zone", true, .str "cn-bj2-02"⟩],
          [⟨"Name", true, .str "db"⟩, ⟨"Zone", true, .str "hk"⟩]],
        ∀ f ∈ elem, f.Name = "Name" → calcWidth hanBlock f.text ≤ W) ∧
      (W = (("Name".length : Nat) : Int) ∨
        ∃ elem ∈ [[(⟨"Name", true, .str "主机"⟩ : RowField), ⟨"Zone", true, .str "cn-bj2-02"⟩],
          [⟨"Name", true, .str "db"⟩, ⟨"Zone", true, .str "hk"⟩]],
        ∃ f ∈ elem, f.Name = "Name" ∧ W = calcWidth hanBlock f.text) :=
  C6_header_width hanBlock [[⟨"Name", true, .str "主机"⟩, ⟨"Zone", true, .str "cn-bj2-02"⟩],
    [⟨"Name", true, .str "db"⟩, ⟨"Zone", true, .str "hk"⟩]] ["Zone", "Name"] 1 "Name"
    (by decide) rfl

/-- C10, as stated, fails, in two ways.  For the column "A名" and one record
whose field "A名" holds "x", the padded cell has the display width 4 (column
content width 2 + GAP) and the padded header has the display width 5.  For the
column "Tags" and one record whose field "Tags" holds the slice of the strings
"a" and "b" (printed `[a b]`, content width 5), the cell is printed with the
width 7, which `fmt` applies to each element: 17 characters in a column of 7. -/
theorem C10_header_alignment_counterexample :
    displaySlice hanBlock [[⟨"A名", true, .str "x"⟩]] ["A名"] =
      some [[⟨2 + GAP, .str "A名"⟩], [⟨2 + GAP, .str "x"⟩]] ∧
    calcWidth hanBlock (Printf.render ⟨2 + GAP, .str "x"⟩) = 4 ∧
    calcWidth hanBlock (Printf.render ⟨2 + GAP, .str "A名"⟩) = 5 ∧
    displaySlice hanBlock [[⟨"Tags", true, .value "[]string"
        [.delim "[", .item "a", .delim " ", .item "b", .delim "]"]⟩]] ["Tags"] =
      some [[⟨5 + GAP, .str "Tags"⟩], [⟨5 + GAP, .value "[]string"
        [.delim "[", .item "a", .delim " ", .item "b", .delim "]"]⟩]] ∧
    Printf.render ⟨5 + GAP, .value "[]string"
        [.delim "[", .item "a", .delim " ", .item "b", .delim "]"]⟩ =
      "[a       b      ]" ∧
    (Printf.render ⟨5 + GAP, .value "[]string"
        [.delim "[", .item "a", .delim " ", .item "b", .delim "]"]⟩).length = 17 := by
  decide

/-- C10, amended.  For every text, `calcWidth` is the number of characters plus
`calcCutWidth`.  For every sequence of records and every column list in which no
column names a field that is not exported, every column `c` of the list and every
record with a field named `c`: the cell is printed with the width
`W - calcCutWidth(cell) + GAP`, `W` being the content width of the column, and
that width is at least the number of characters of the cell plus `GAP` and at
most `W + GAP`.  When `W + GAP` is a width that `fmt` reads (the header and the
texts of the fields named `c` have a width plus `GAP` of at most 10000009), the
padded header has `W + GAP` characters and the display width
`W + GAP + calcCutWidth(c)`; when moreover the cell holds a value that `fmt`
prints as one padded text (a string, a boolean, an integer, a float), the padded
cell has as many characters as its padding width, hence `W + GAP` at most, and
the display width `W + GAP`, whatever the row, which is the display width of the
padded header when `c` has no wide character. -/
theorem C10_cells_aligned (isOneOf : Char → Bool) (listVal : List (List RowField))
    (fieldList : List String) (i j : Nat) (elem : List RowField) (c : String)
    (hexp : ∀ e ∈ listVal, ∀ f ∈ e, f.Name ∈ fieldList → f.exported = true)
    (hi : listVal[i]? = some elem) (hj : fieldList[j]? = some c)
    (hfield : ∃ f ∈ elem, f.Name = c) :
    (∀ text : String,
      calcWidth isOneOf text = (text.length : Int) + calcCutWidth isOneOf text) ∧
    ∃ (out : List (List Printf)) (header cells : List Printf) (h p : Printf) (W : Int),
      displaySlice isOneOf listVal fieldList = some out ∧
      out[0]? = some header ∧ header[j]? = some h ∧
      out[i + 1]? = some cells ∧ cells[j]? = some p ∧
      h = ⟨W + GAP, Operand.str c⟩ ∧
      (∃ f ∈ elem, f.Name = c ∧ p.operand = f.value) ∧
      p.width = W - calcCutWidth isOneOf p.text + GAP ∧
      (p.text.length : Int) + GAP ≤ p.width ∧
      p.width ≤ W + GAP ∧
      (((c.length : Int) + GAP ≤ (maxWidth : Int) ∧
          ∀ e ∈ listVal, ∀ f ∈ e, f.Name = c →
            calcWidth isOneOf f.text + GAP ≤ (maxWidth : Int)) →
        (h.render.length : Int) = W + GAP ∧
        calcWidth isOneOf h.render = W + GAP + calcCutWidth isOneOf c ∧
        ((∀ f ∈ elem, f.Name = c → f.value.isScalar = true) →
          (p.render.length : Int) = p.width ∧
          (p.render.length : Int) ≤ W + GAP ∧
          calcWidth isOneOf p.render = W + GAP ∧
          (calcCutWidth isOneOf c = 0 →
            calcWidth isOneOf h.render = calcWidth isOneOf p.render))) := by
  refine ⟨calcWidth_eq isOneOf, ?_⟩
  obtain ⟨rowList, m, hds, h1, h2, h3, hall⟩ :=
    displaySlice_column isOneOf listVal fieldList c hexp (List.getElem?_mem hj)
  obtain ⟨row, hrow, hr⟩ := forall₂_getElem? hall i elem hi
  obtain ⟨f, hf, hfc, hft⟩ := hr hfield
  have hop : cellOperand row c = f.value := by simp [cellOperand, hft]
  have htext : cellText row c = f.text := by simp [cellText, hop, RowField.text]
  have hwf : calcWidth isOneOf f.text ≤ m.width c := h2 elem (List.getElem?_mem hi) f hf hfc
  have hcut := calcCutWidth_nonneg isOneOf f.text
  have hcutc := calcCutWidth_nonneg isOneOf c
  rw [calcWidth_eq] at hwf
  have hgap : GAP = 2 := rfl
  have hptext : (Printf.mk (m.width c - calcCutWidth isOneOf f.text + GAP) f.value).text =
      f.text := rfl
  have hhtext : (Printf.mk (m.width c + GAP) (Operand.str c)).text = c := by
    simp only [Printf.text, Operand.str, Operand.text, List.map, Segment.text, join_singleton]
  refine ⟨_, fieldList.map fun field => ⟨m.width field + GAP, Operand.str field⟩,
    fieldList.map fun field =>
      ⟨m.width field - calcCutWidth isOneOf (cellText row field) + GAP, cellOperand row field⟩,
    ⟨m.width c + GAP, Operand.str c⟩,
    ⟨m.width c - calcCutWidth isOneOf f.text + GAP, f.value⟩, m.width c, hds, ?_, ?_, ?_, ?_,
    rfl, ⟨f, hf, hfc, rfl⟩, ?_, ?_, ?_, ?_⟩
  · simp only [printTable, List.getElem?_cons_zero]
  · simp [List.getElem?_map, hj]
  · simp only [printTable, List.getElem?_cons_succ, List.getElem?_map, hrow, Option.map_some']
  · simp [List.getElem?_map, hj, htext, hop]
  · rw [hptext]
  · rw [hptext]
    show (f.text.length : Int) + GAP ≤ m.width c - calcCutWidth isOneOf f.text + GAP
    omega
  · show m.width c - calcCutWidth isOneOf f.text + GAP ≤ m.width c + GAP
    omega
  · rintro ⟨hw1, hw2⟩
    have hmax : m.width c + GAP ≤ (maxWidth : Int) := by
      rcases h3 with e | ⟨e2, he2, g, hg, hgc, e⟩
      · rw [e]; exact hw1
      · rw [e]; exact hw2 e2 he2 g hg hgc
    have hrh := calcWidth_render isOneOf ⟨m.width c + GAP, Operand.str c⟩ rfl hmax
      (by rw [hhtext]; show (c.length : Int) ≤ m.width c + GAP; omega)
    have hlh := length_render ⟨m.width c + GAP, Operand.str c⟩ rfl hmax
      (by rw [hhtext]; show (c.length : Int) ≤ m.width c + GAP; omega)
    rw [hhtext] at hrh
    have hhw : (Printf.mk (m.width c + GAP) (Operand.str c)).width = m.width c + GAP := rfl
    rw [hhw] at hrh hlh
    refine ⟨hlh, hrh, ?_⟩
    intro hscalar
    have hs : f.value.isScalar = true := hscalar f hf hfc
    have hpmax : m.width c - calcCutWidth isOneOf f.text + GAP ≤ (maxWidth : Int) := by omega
    have hrp := calcWidth_render isOneOf
      ⟨m.width c - calcCutWidth isOneOf f.text + GAP, f.value⟩ hs hpmax
      (by rw [hptext]
          show (f.text.length : Int) ≤ m.width c - calcCutWidth isOneOf f.text + GAP
          omega)
    have hlp := length_render ⟨m.width c - calcCutWidth isOneOf f.text + GAP, f.value⟩ hs hpmax
      (by rw [hptext]
          show (f.text.length : Int) ≤ m.width c - calcCutWidth isOneOf f.text + GAP
          omega)
    rw [hptext] at hrp
    have hpw : (Printf.mk (m.width c - calcCutWidth isOneOf f.text + GAP) f.value).width =
        m.width c - calcCutWidth isOneOf f.text + GAP := rfl
    rw [hpw] at hrp hlp
    refine ⟨by rw [hlp], by rw [hlp]; omega, by rw [hrp]; omega, ?_⟩
    intro h0
    rw [hrh, hrp]
    omega

theorem C10_cells_aligned_witness :
    (∀ text : String,
      calcWidth hanBlock text = (text.length : Int) + calcCutWidth hanBlock text) ∧
    ∃ (out : List (List Printf)) (header cells : List Printf) (h p : Printf) (W : Int),
      displaySlice hanBlock [[⟨"Name", true, .str "主机"⟩, ⟨"Zone", true, .str "cn-bj2-02"⟩],
        [⟨"Name", true, .str "db"⟩, ⟨"Zone", true, .str "hk"⟩]] ["Zone", "Name"] = some out ∧
      out[0]? = some header ∧ header[1]? = some h ∧
      out[0 + 1]? = some cells ∧ cells[1]? = some p ∧
      h = ⟨W + GAP, Operand.str "Name"⟩ ∧
      (∃ f ∈ [(⟨"Name", true, .str "主机"⟩ : RowField), ⟨"Zone", true, .str "cn-bj2-02"⟩],
        f.Name = "Name" ∧ p.operand = f.value) ∧
      p.width = W - calcCutWidth hanBlock p.text + GAP ∧
      (p.text.length : Int) + GAP ≤ p.width ∧
      p.width ≤ W + GAP ∧
      (h.render.length : Int) = W + GAP ∧
      calcWidth hanBlock h.render = W + GAP + calcCutWidth hanBlock "Name" ∧
      (p.render.length : Int) = p.width ∧
      (p.render.length : Int) ≤ W + GAP ∧
      calcWidth hanBlock p.render = W + GAP ∧
      (calcCutWidth hanBlock "Name" = 0 →
        calcWidth hanBlock h.render = calcWidth hanBlock p.render) := by
  obtain ⟨h0, out, header, cells, h, p, W, a1, a2, a3, a4, a5, a6, a7, a8, a9, a10, a11⟩ :=
    C10_cells_aligned hanBlock [[⟨"Name", true, .str "主机"⟩, ⟨"Zone", true, .str "cn-bj2-02"⟩],
      [⟨"Name", true, .str "db"⟩, ⟨"Zone", true, .str "hk"⟩]] ["Zone", "Name"] 0 1
      [⟨"Name", true, .str "主机"⟩, ⟨"Zone", true, .str "cn-bj2-02"⟩] "Name"
      (by decide) rfl rfl ⟨⟨"Name", true, .str "主机"⟩, by decide, rfl⟩
  obtain ⟨b1, b2, b3⟩ := a11 (by decide)
  obtain ⟨c1, c2, c3, c4⟩ := b3 (by decide)
  exact ⟨h0, out, header, cells, h, p, W, a1, a2, a3, a4, a5, a6, a7, a8, a9, a10,
    b1, b2, c1, c2, c3, c4⟩

/-! ## Lemmas on byte strings -/

theorem wrapInt_eq (x : Int) (hlo : -(2 ^ 63) ≤ x) (hhi : x < 2 ^ 63) : wrapInt x = x := by
  unfold wrapInt
  omega

theorem flatten_replicate_star (n : Nat) :
    (List.replicate n [star]).flatten = List.replicate n star := by
  induction n with
  | zero => rfl
  | succ k ih => simp [List.replicate_succ, ih]

theorem Repeat_star (count : Int) (h0 : 0 ≤ count) (h1 : count < 2 ^ 63) :
    Repeat [star] count = some (List.replicate count.toNat star) := by
  have h : ¬ (count < 0 ∨ ((([star] : List Byte).length : Nat) : Int) * count ≥ 2 ^ 63) := by
    simp only [List.length_singleton, Nat.cast_one, one_mul]
    omega
  simp only [Repeat, h, if_false, flatten_replicate_star]

theorem IndexByte_absent (s : List Byte) (c : Byte) (h : c ∉ s) : IndexByte s c = -1 := by
  induction s with
  | nil => rfl
  | cons b rest ih =>
    have hb : ¬ b = c := fun e => h (e ▸ List.mem_cons_self _ _)
    have hr : c ∉ rest := fun e => h (List.mem_cons_of_mem _ e)
    simp [IndexByte, hb, ih hr]

theorem IndexByte_first (before after : List Byte) (c : Byte) (h : c ∉ before) :
    IndexByte (before ++ c :: after) c = (before.length : Int) := by
  induction before with
  | nil => simp [IndexByte]
  | cons b rest ih =>
    have hb : ¬ b = c := fun e => h (e ▸ List.mem_cons_self _ _)
    have hr : c ∉ rest := fun e => h (List.mem_cons_of_mem _ e)
    have hn : ¬ ((rest.length : Int) < 0) := by omega
    rw [List.cons_append]
    simp only [IndexByte, hb, if_false]
    rw [ih hr]
    simp only [hn, if_false, List.length_cons]
    omega

theorem split_at_first (s : List Byte) (c : Byte) (h : c ∈ s) :
    ∃ before after, s = before ++ c :: after ∧ c ∉ before := by
  induction s with
  | nil => cases h
  | cons b rest ih =>
    by_cases hb : b = c
    · exact ⟨[], rest, by simp [hb], by simp⟩
    · have hr : c ∈ rest := by
        rcases List.mem_cons.1 h with e | e
        · exact absurd e.symm hb
        · exact e
      obtain ⟨before, after, e, hn⟩ := ih hr
      refine ⟨b :: before, after, by simp [e], ?_⟩
      intro hm
      rcases List.mem_cons.1 hm with e2 | e2
      · exact hb e2.symm
      · exact hn e2

theorem PickResourceID_absent (str : List Byte) (h : slash ∉ str) :
    PickResourceID str = some str := by
  simp [PickResourceID, IndexByte_absent str slash h]

theorem PickResourceID_first (before after : List Byte) (h : slash ∉ before) :
    PickResourceID (before ++ slash :: after) = some before := by
  have hi := IndexByte_first before after slash h
  have h1 : (before.length : Int) > -1 := by omega
  have h2 : ¬ (2 > (((before ++ slash :: after).length : Nat) : Int) + 1) := by
    simp only [List.length_append, List.length_cons]
    push_cast
    omega
  have h3 : ¬ ((before.length : Int) < 0) := by omega
  simp only [PickResourceID, SplitN2, hi, h1, h2, h3, if_true, if_false]
  simp

/-! ## Claims on `PickResourceID` and `MosaicString` -/

/-- C7: for every `id` without "/" and every `name`, `PickResourceID` maps
`id + "/" + name` to `id` and `id` to itself; for every string the result holds no
"/" and `PickResourceID` maps it to itself. -/
theorem C7_PickResourceID (id name str : List Byte) (hid : slash ∉ id) :
    PickResourceID (id ++ [slash] ++ name) = some id ∧
    PickResourceID id = some id ∧
    ∃ r, PickResourceID str = some r ∧ slash ∉ r ∧ PickResourceID r = some r := by
  refine ⟨?_, PickResourceID_absent id hid, ?_⟩
  · have e : id ++ [slash] ++ name = id ++ slash :: name := by simp
    rw [e]
    exact PickResourceID_first id name hid
  · by_cases hs : slash ∈ str
    · obtain ⟨before, after, e, hn⟩ := split_at_first str slash hs
      exact ⟨before, by rw [e]; exact PickResourceID_first before after hn, hn,
        PickResourceID_absent before hn⟩
    · exact ⟨str, PickResourceID_absent str hs, hs, PickResourceID_absent str hs⟩

theorem C7_PickResourceID_witness :
    PickResourceID ([117, 104, 45, 49] ++ [slash] ++ [110, 47, 109]) = some [117, 104, 45, 49] ∧
    PickResourceID [117, 104, 45, 49] = some [117, 104, 45, 49] ∧
    ∃ r, PickResourceID [97, 47, 98, 47, 99] = some r ∧ slash ∉ r ∧
      PickResourceID r = some r :=
  C7_PickResourceID [117, 104, 45, 49] [110, 47, 109] [97, 47, 98, 47, 99] (by decide)

/-- C8, as stated, fails: for the empty string and beginChars = lastChars =
2^63 - 1, both non-negative with beginChars + lastChars not below len(s), the
difference len(s) - lastChars - beginChars wraps to 2, and the slice expression
`s[:beginChars]` is out of range: the call panics instead of returning len(s)
asterisks. -/
theorem C8_overflow_counterexample :
    (0 : Int) ≤ 9223372036854775807 ∧ (9223372036854775807 : Int) < 2 ^ 63 ∧
    ¬ ((9223372036854775807 : Int) + 9223372036854775807 < (([] : List Byte).length : Int)) ∧
    wrapInt (wrapInt ((([] : List Byte).length : Int) - 9223372036854775807)
      - 9223372036854775807) = 2 ∧
    MosaicString [] 9223372036854775807 9223372036854775807 = none ∧
    MosaicString [] 9223372036854775807 9223372036854775807 ≠
      some (List.replicate ([] : List Byte).length star) := by
  decide

/-- C8, amended: for every string `s` and all `beginChars >= 0` and
`lastChars >= 0` for which `len(s) - lastChars - beginChars` does not overflow
(`beginChars + lastChars <= len(s) + 2^63`): if `beginChars + lastChars < len(s)`,
`MosaicString` returns the first `beginChars` bytes of `s`, then
`len(s) - beginChars - lastChars` asterisks, then the last `lastChars` bytes of
`s`; otherwise it returns `len(s)` asterisks.  In both cases it does not panic and
the result has the length of `s`. -/
theorem C8_MosaicString (s : List Byte) (beginChars lastChars : Int)
    (hlen : (s.length : Int) < 2 ^ 63)
    (hb0 : 0 ≤ beginChars) (hb1 : beginChars < 2 ^ 63)
    (hl0 : 0 ≤ lastChars) (hl1 : lastChars < 2 ^ 63)
    (hov : beginChars + lastChars ≤ (s.length : Int) + 2 ^ 63) :
    (beginChars + lastChars < (s.length : Int) →
      MosaicString s beginChars lastChars =
        some (s.take beginChars.toNat ++
          List.replicate ((s.length : Int) - beginChars - lastChars).toNat star ++
          s.drop (s.length - lastChars.toNat))) ∧
    (¬ (beginChars + lastChars < (s.length : Int)) →
      MosaicString s beginChars lastChars = some (List.replicate s.length star)) ∧
    ∃ out, MosaicString s beginChars lastChars = some out ∧ out.length = s.length := by
  have w1 : wrapInt ((s.length : Int) - lastChars) = (s.length : Int) - lastChars :=
    wrapInt_eq _ (by omega) (by omega)
  have w2 : wrapInt ((s.length : Int) - lastChars - beginChars) =
      (s.length : Int) - lastChars - beginChars := wrapInt_eq _ (by omega) (by omega)
  have hstar : Repeat [star] (s.length : Int) = some (List.replicate s.length star) := by
    rw [Repeat_star _ (by omega) hlen]
    simp
  have hA : beginChars + lastChars < (s.length : Int) →
      MosaicString s beginChars lastChars =
        some (s.take beginChars.toNat ++
          List.replicate ((s.length : Int) - beginChars - lastChars).toNat star ++
          s.drop (s.length - lastChars.toNat)) := by
    intro h
    have hr : (s.length : Int) - lastChars - beginChars > 0 := by omega
    have w3 : wrapInt ((s.length : Int) - lastChars - beginChars + beginChars) =
        (s.length : Int) - lastChars := by
      rw [wrapInt_eq _ (by omega) (by omega)]
      omega
    have c1 : 0 ≤ beginChars ∧ beginChars ≤ (s.length : Int) := by omega
    have c2 : 0 ≤ (s.length : Int) - lastChars ∧
        (s.length : Int) - lastChars ≤ (s.length : Int) := by omega
    have e1 : ((s.length : Int) - lastChars).toNat = s.length - lastChars.toNat := by omega
    have e2 : (s.length : Int) - lastChars - beginChars =
        (s.length : Int) - beginChars - lastChars := by omega
    simp only [MosaicString, w1, w2, w3, hr, if_true, sliceTo, sliceFrom, c1, c2,
      and_self]
    rw [Repeat_star _ (by omega) (by omega), e1, e2]
  have hB : ¬ (beginChars + lastChars < (s.length : Int)) →
      MosaicString s beginChars lastChars = some (List.replicate s.length star) := by
    intro h
    have hr : ¬ ((s.length : Int) - lastChars - beginChars > 0) := by omega
    simp only [MosaicString, w1, w2, hr, if_false, hstar]
  refine ⟨hA, hB, ?_⟩
  by_cases h : beginChars + lastChars < (s.length : Int)
  · refine ⟨_, hA h, ?_⟩
    simp only [List.length_append, List.length_take, List.length_replicate, List.length_drop]
    omega
  · exact ⟨_, hB h, by simp⟩

theorem C8_MosaicString_witness :
    ((1 : Int) + 2 < (([97, 98, 99, 100, 101, 102] : List Byte).length : Int) →
      MosaicString [97, 98, 99, 100, 101, 102] 1 2 =
        some (([97, 98, 99, 100, 101, 102] : List Byte).take (1 : Int).toNat ++
          List.replicate ((([97, 98, 99, 100, 101, 102] : List Byte).length : Int)
            - 1 - 2).toNat star ++
          ([97, 98, 99, 100, 101, 102] : List Byte).drop
            (([97, 98, 99, 100, 101, 102] : List Byte).length - (2 : Int).toNat))) ∧
    (¬ ((1 : Int) + 2 < (([97, 98, 99, 100, 101, 102] : List Byte).length : Int)) →
      MosaicString [97, 98, 99, 100, 101, 102] 1 2 =
        some (List.replicate ([97, 98, 99, 100, 101, 102] : List Byte).length star)) ∧
    ∃ out, MosaicString [97, 98, 99, 100, 101, 102] 1 2 = some out ∧
      out.length = ([97, 98, 99, 100, 101, 102] : List Byte).length :=
  C8_MosaicString [97, 98, 99, 100, 101, 102] 1 2 (by decide) (by decide) (by decide)
    (by decide) (by decide) (by decide)

end Base
